import Mathlib

/-!
Shallow embedding of the PortFinder core (src/core.ts, src/validators.ts).

Ports are natural numbers; the `host` string plays no role in the control
flow, so the single-port probe `checkPort` is abstracted by a pure
availability oracle `avail : Nat → Bool` (one fixed outcome per port).
The `Set<number>` exclusion set becomes a boolean membership function,
and the optional validator becomes `Option (Nat → Bool)`.

Where a claim is about effects rather than values, an instrumented
variant is embedded alongside the pure one:
  * `checkPortTrace` records the event sequence of the probe promise;
  * `scanPortsE` / `scanPortsParallelE` let the validator throw
    (`Except`), and count the probes issued, mirroring the fact that the
    TypeScript validator callback is `applyValidators`, which throws on
    an unknown name;
  * `scanPortsParallelTrace` additionally records the batches of ports
    probed concurrently.
-/

namespace PortFinder

/-- The inclusive ascending port walk `for (let port = start; port <= end; port++)`. -/
def portsFromTo (start e : Nat) : List Nat :=
  List.range' start (e + 1 - start)

/-- Validator guard of the scanners: `!validator || validator(port)`. -/
def validatorAccepts (validator : Option (Nat → Bool)) (port : Nat) : Bool :=
  match validator with
  | none => true
  | some v => v port

/-- Body of `scanPorts` (core.ts lines 99-137): the `for` loop walking the
range, carrying the mutable `found`, `consecutiveStart` (initially `-1`,
hence `Int`) and `consecutiveCount` state. -/
def scanPortsLoop (exclude : Nat → Bool) (validator : Option (Nat → Bool))
    (avail : Nat → Bool) (count : Nat) (consecutive : Bool) :
    List Nat → List Nat → Int → Nat → List Nat
  | [], found, _, _ => found
  | port :: rest, found, cStart, cCount =>
    if count ≤ found.length then found
    else if exclude port then
      scanPortsLoop exclude validator avail count consecutive rest found cStart 0
    else if !(validatorAccepts validator port) then
      scanPortsLoop exclude validator avail count consecutive rest found cStart 0
    else if avail port then
      if consecutive then
        -- `consecutiveStart` is updated to `port` when the run was empty,
        -- `consecutiveCount` is incremented (the `let` locals are inlined)
        if cCount + 1 = count then
          found ++ (List.range count).map (fun i =>
            (if cCount = 0 then (port : Int) else cStart).toNat + i)
        else
          scanPortsLoop exclude validator avail count consecutive rest found
            (if cCount = 0 then (port : Int) else cStart) (cCount + 1)
      else
        scanPortsLoop exclude validator avail count consecutive rest (found ++ [port]) cStart cCount
    else
      scanPortsLoop exclude validator avail count consecutive rest found cStart 0

/-- Function `scanPorts` (core.ts lines 90-138), with `checkPort` abstracted by `avail`. -/
def scanPorts (start e : Nat) (exclude : Nat → Bool) (validator : Option (Nat → Bool))
    (avail : Nat → Bool) (count : Nat) (consecutive : Bool) : List Nat :=
  scanPortsLoop exclude validator avail count consecutive (portsFromTo start e) [] (-1) 0

/-- Candidate pre-filter pass of `scanPortsParallel` (core.ts lines 161-167):
`!exclude.has(port) && (!validator || validator(port))`. -/
def candidatePorts (start e : Nat) (exclude : Nat → Bool)
    (validator : Option (Nat → Bool)) : List Nat :=
  (portsFromTo start e).filter (fun port => !exclude port && validatorAccepts validator port)

/-- Batch loop of `scanPortsParallel` (core.ts lines 169-183).  The
TypeScript loop advances `i` by `maxConcurrency` and therefore diverges
when `maxConcurrency = 0`; the embedding consumes explicit fuel, one unit
per window, which suffices whenever `1 ≤ maxConcurrency`. -/
def parallelLoop (avail : Nat → Bool) (count maxC : Nat) :
    Nat → List Nat → List Nat → List Nat
  | 0, _, found => found
  | _ + 1, [], found => found
  | fuel + 1, port :: rest, found =>
    if count ≤ found.length then found
    else
      let batch := (port :: rest).take maxC
      let results := batch.map (fun p => (p, avail p))
      let found' := results.foldl
        (fun f r => if r.2 && decide (f.length < count) then f ++ [r.1] else f) found
      parallelLoop avail count maxC fuel ((port :: rest).drop maxC) found'

/-- Function `scanPortsParallel` (core.ts lines 151-186), with `checkPort` abstracted
by `avail`. -/
def scanPortsParallel (start e : Nat) (exclude : Nat → Bool)
    (validator : Option (Nat → Bool)) (avail : Nat → Bool)
    (count maxC : Nat) : List Nat :=
  let ports := candidatePorts start e exclude validator
  parallelLoop avail count maxC (ports.length + 1) ports []

/-! ### Validator registry (src/validators.ts) -/

/-- Constant `COMMON_PORTS` (validators.ts): the fixed well-known-service port set. -/
def COMMON_PORTS : List Nat :=
  [20, 21, 22, 23, 25, 53, 67, 68, 69, 80, 110, 119, 123, 143, 161, 162,
   179, 194, 389, 443, 445, 465, 514, 515, 587, 636, 873, 902, 989, 990,
   993, 995, 1080, 1194, 1433, 1434, 1521, 1723, 2049, 2082, 2083, 2086,
   2087, 2095, 2096, 2181, 3000, 3001, 3128, 3306, 3389, 3690, 4000, 4001,
   4002, 4003, 4004, 4005, 4006, 4007, 4008, 4009, 5000, 5001, 5060, 5061,
   5432, 5900, 5984, 5985, 6379, 6666, 6667, 6668, 6669, 7000, 7001, 7002,
   8000, 8001, 8008, 8009, 8080, 8081, 8082, 8083, 8084, 8085, 8086, 8087,
   8088, 8089, 8090, 8091, 8092, 8093, 8094, 8095, 8096, 8097, 8098, 8099,
   8443, 8444, 8880, 8888, 9000, 9001, 9090, 9091, 9200, 9300, 9418, 9999,
   10000, 10001, 10002, 10003, 10004, 10005, 11211, 15672, 25565, 25575,
   27017, 27018, 27019, 28017, 33848, 35357]

/-- Registry `builtInValidators` (validators.ts): `common-ports` and `privileged`. -/
def builtInValidators : String → Option (Nat → Bool) := fun name =>
  if name = "common-ports" then some (fun port => !(COMMON_PORTS.contains port))
  else if name = "privileged" then some (fun port => decide (1024 ≤ port))
  else none

/-- Function `getValidator` (validators.ts): custom registry entries shadow built-ins. -/
def getValidator (customs : String → Option (Nat → Bool)) (name : String) :
    Option (Nat → Bool) :=
  match customs name with
  | some v => some v
  | none => builtInValidators name

/-- The empty custom-validator registry. -/
def noCustoms : String → Option (Nat → Bool) := fun _ => none

/-- Function `applyValidators` (validators.ts lines 171-182); the `throw` on an
unknown name is embedded as `Except.error`. -/
def applyValidators (customs : String → Option (Nat → Bool)) (port : Nat) :
    List String → Except String Bool
  | [] => Except.ok true
  | name :: rest =>
    match getValidator customs name with
    | none => Except.error ("Unknown validator: " ++ name)
    | some v => if v port then applyValidators customs port rest else Except.ok false

/-! ### Probe model (`checkPort`, core.ts lines 47-77) -/

/-- Outcome of `server.listen(port, host)`: the `listening` event, the
`error` event with an error code, or a synchronous throw. -/
inductive BindOutcome
  | listening
  | asyncError (code : String)
  | syncThrow
deriving DecidableEq

/-- Whether the bind reached the `listening` state. -/
def BindOutcome.isListening : BindOutcome → Bool
  | .listening => true
  | _ => false

/-- Observable events of one `checkPort` call: releasing the server
(`cleanup`, i.e. `removeAllListeners` + `close`), settling the promise
with `resolve(v)`, or rejecting the promise (never emitted by the code,
but part of the promise vocabulary). -/
inductive ProbeEvent
  | cleanup
  | resolveEv (v : Bool)
  | rejectEv
deriving DecidableEq

/-- Function `checkPort` (core.ts lines 47-77) as an event trace per bind outcome:
the `listening` handler, the `error` handler (whose `EADDRINUSE`/`EACCES`
branch and `else` branch both resolve `false`), and the `catch` around a
synchronous `listen` throw. -/
def checkPortTrace : BindOutcome → List ProbeEvent
  | .listening => [.cleanup, .resolveEv true]
  | .asyncError code =>
      if code = "EADDRINUSE" || code = "EACCES" then [.cleanup, .resolveEv false]
      else [.cleanup, .resolveEv false]
  | .syncThrow => [.cleanup, .resolveEv false]

/-- The boolean a `checkPort` call resolves to. -/
def checkPort (o : BindOutcome) : Bool :=
  (checkPortTrace o).foldl (fun acc ev => match ev with
    | .resolveEv v => v
    | _ => acc) false

/-! ### Instrumented scanners: throwing validator, probe counting

In `findPort`/`findPorts` (index.ts) the validator closure is
`port => applyValidators(port, validators)`, which throws on an unknown
name.  These variants embed the validator as `Nat → Except String Bool`
and also count the `checkPort` calls issued, so that "fails before any
probe" is statable.  An `Except.error (msg, n)` result means the scan
threw `msg` after having issued `n` probes. -/

/-- The validator guard of the throwing variants: an absent validator
accepts, a present one runs (and may throw). -/
def validatorRun (validator : Option (Nat → Except String Bool)) (port : Nat) :
    Except String Bool :=
  match validator with
  | none => Except.ok true
  | some v => v port

/-- The `scanPorts` loop with a throwing validator and a probe counter. -/
def scanPortsLoopE (exclude : Nat → Bool) (validator : Option (Nat → Except String Bool))
    (avail : Nat → Bool) (count : Nat) (consecutive : Bool) :
    List Nat → List Nat → Int → Nat → Nat → Except (String × Nat) (List Nat × Nat)
  | [], found, _, _, probes => Except.ok (found, probes)
  | port :: rest, found, cStart, cCount, probes =>
    if count ≤ found.length then Except.ok (found, probes)
    else if exclude port then
      scanPortsLoopE exclude validator avail count consecutive rest found cStart 0 probes
    else
      match validatorRun validator port with
      | Except.error msg => Except.error (msg, probes)
      | Except.ok false =>
        scanPortsLoopE exclude validator avail count consecutive rest found cStart 0 probes
      | Except.ok true =>
        if avail port then
          if consecutive then
            if cCount + 1 = count then
              Except.ok (found ++ (List.range count).map (fun i =>
                (if cCount = 0 then (port : Int) else cStart).toNat + i), probes + 1)
            else
              scanPortsLoopE exclude validator avail count consecutive rest found
                (if cCount = 0 then (port : Int) else cStart) (cCount + 1) (probes + 1)
          else
            scanPortsLoopE exclude validator avail count consecutive rest (found ++ [port]) cStart cCount (probes + 1)
        else
          scanPortsLoopE exclude validator avail count consecutive rest found cStart 0 (probes + 1)

/-- Function `scanPorts` with a throwing validator; result carries the probe count. -/
def scanPortsE (start e : Nat) (exclude : Nat → Bool)
    (validator : Option (Nat → Except String Bool)) (avail : Nat → Bool)
    (count : Nat) (consecutive : Bool) : Except (String × Nat) (List Nat × Nat) :=
  scanPortsLoopE exclude validator avail count consecutive (portsFromTo start e) [] (-1) 0 0

/-- Candidate pre-filter pass of `scanPortsParallel` with a throwing
validator: the pass itself may throw, before any probing. -/
def buildCandidatesE (exclude : Nat → Bool) (validator : Option (Nat → Except String Bool)) :
    List Nat → List Nat → Except String (List Nat)
  | [], acc => Except.ok acc
  | port :: rest, acc =>
    if exclude port then buildCandidatesE exclude validator rest acc
    else
      match validatorRun validator port with
      | Except.error msg => Except.error msg
      | Except.ok true => buildCandidatesE exclude validator rest (acc ++ [port])
      | Except.ok false => buildCandidatesE exclude validator rest acc

/-- Batch loop of `scanPortsParallel` with a probe counter (each window
issues one probe per batched port). -/
def parallelLoopE (avail : Nat → Bool) (count maxC : Nat) :
    Nat → List Nat → List Nat → Nat → List Nat × Nat
  | 0, _, found, probes => (found, probes)
  | _ + 1, [], found, probes => (found, probes)
  | fuel + 1, port :: rest, found, probes =>
    if count ≤ found.length then (found, probes)
    else
      let batch := (port :: rest).take maxC
      let results := batch.map (fun p => (p, avail p))
      let found' := results.foldl
        (fun f r => if r.2 && decide (f.length < count) then f ++ [r.1] else f) found
      parallelLoopE avail count maxC fuel ((port :: rest).drop maxC) found' (probes + batch.length)

/-- Function `scanPortsParallel` with a throwing validator; an error is thrown during
the pure candidate pass (zero probes issued at that point). -/
def scanPortsParallelE (start e : Nat) (exclude : Nat → Bool)
    (validator : Option (Nat → Except String Bool)) (avail : Nat → Bool)
    (count maxC : Nat) : Except (String × Nat) (List Nat × Nat) :=
  match buildCandidatesE exclude validator (portsFromTo start e) [] with
  | Except.error msg => Except.error (msg, 0)
  | Except.ok ports => Except.ok (parallelLoopE avail count maxC (ports.length + 1) ports [] 0)

/-! ### Instrumented parallel scanner: batch trace -/

/-- Batch loop of `scanPortsParallel`, recording each window of ports
probed concurrently. -/
def parallelLoopTrace (avail : Nat → Bool) (count maxC : Nat) :
    Nat → List Nat → List Nat → List Nat × List (List Nat)
  | 0, _, found => (found, [])
  | _ + 1, [], found => (found, [])
  | fuel + 1, port :: rest, found =>
    if count ≤ found.length then (found, [])
    else
      let batch := (port :: rest).take maxC
      let results := batch.map (fun p => (p, avail p))
      let found' := results.foldl
        (fun f r => if r.2 && decide (f.length < count) then f ++ [r.1] else f) found
      let next := parallelLoopTrace avail count maxC fuel ((port :: rest).drop maxC) found'
      (next.1, batch :: next.2)

/-- Function `scanPortsParallel` together with the list of probe windows it issues,
in order. -/
def scanPortsParallelTrace (start e : Nat) (exclude : Nat → Bool)
    (validator : Option (Nat → Bool)) (avail : Nat → Bool)
    (count maxC : Nat) : List Nat × List (List Nat) :=
  let ports := candidatePorts start e exclude validator
  parallelLoopTrace avail count maxC (ports.length + 1) ports []

/-! ### Instrumented candidate pass: validator-evaluation counter -/

/-- Candidate pre-filter pass of `scanPortsParallel`, counting how many
times the validator function is evaluated.  The `&&` in
`!exclude.has(port) && (!validator || validator(port))` short-circuits:
the validator is not consulted on an excluded port. -/
def candidatePassCount (exclude : Nat → Bool) (validator : Option (Nat → Bool)) :
    List Nat → List Nat × Nat → List Nat × Nat
  | [], acc => acc
  | port :: rest, acc =>
    if exclude port then candidatePassCount exclude validator rest acc
    else
      match validator with
      | none => candidatePassCount exclude validator rest (acc.1 ++ [port], acc.2)
      | some v =>
        if v port then candidatePassCount exclude validator rest (acc.1 ++ [port], acc.2 + 1)
        else candidatePassCount exclude validator rest (acc.1, acc.2 + 1)

/-! ### Derived predicates -/

/-- A port passes all three scan gates: not excluded, validator-accepted,
and available.  This is the conjunction of the guards of both scanners. -/
def elig (exclude : Nat → Bool) (validator : Option (Nat → Bool))
    (avail : Nat → Bool) (p : Nat) : Bool :=
  !exclude p && validatorAccepts validator p && avail p

/-! ### Basic lemmas -/

theorem mem_portsFromTo {start e p : Nat} :
    p ∈ portsFromTo start e ↔ start ≤ p ∧ p ≤ e := by
  unfold portsFromTo
  rw [List.mem_range'_1]
  omega

theorem candidatePorts_filter_avail (start e : Nat) (exclude : Nat → Bool)
    (validator : Option (Nat → Bool)) (avail : Nat → Bool) :
    (candidatePorts start e exclude validator).filter avail
      = (portsFromTo start e).filter (elig exclude validator avail) := by
  unfold candidatePorts
  rw [List.filter_filter]
  refine List.filter_congr ?_
  intro p _
  unfold elig
  cases exclude p <;> cases validatorAccepts validator p <;> cases avail p <;> rfl

/-- Effect of the window-collection fold: append the available ports of
the batch, in order, up to the remaining quota. -/
theorem foldl_push_eq (avail : Nat → Bool) (count : Nat) :
    ∀ (batch found : List Nat),
    (batch.map (fun p => (p, avail p))).foldl
        (fun f r => if r.2 && decide (f.length < count) then f ++ [r.1] else f) found
      = found ++ (batch.filter avail).take (count - found.length) := by
  intro batch
  induction batch with
  | nil => simp
  | cons p rest ih =>
    intro found
    simp only [List.map_cons, List.foldl_cons]
    by_cases hav : avail p
    · by_cases hlt : found.length < count
      · rw [if_pos (by simp [hav, hlt])]
        rw [ih (found ++ [p])]
        have hsub : count - found.length = (count - (found ++ [p]).length) + 1 := by
          simp only [List.length_append, List.length_cons, List.length_nil]
          omega
        simp only [List.filter_cons, hav, if_pos]
        rw [hsub, List.take_succ_cons]
        simp
      · rw [if_neg (by simp [hlt])]
        rw [ih found]
        have hsub : count - found.length = 0 := by omega
        simp [hsub]
    · rw [if_neg (by simp [hav])]
      rw [ih found]
      simp only [List.filter_cons]
      rw [if_neg (by simp [hav])]

/-- The parallel batch loop returns the input accumulator extended with
the first `count - found.length` available candidates, provided the fuel
covers the candidate list and the window size is positive. -/
theorem parallelLoop_eq (avail : Nat → Bool) (count maxC : Nat) (hmax : 1 ≤ maxC) :
    ∀ (fuel : Nat) (ports found : List Nat), ports.length ≤ fuel →
    parallelLoop avail count maxC fuel ports found
      = found ++ (ports.filter avail).take (count - found.length) := by
  intro fuel
  induction fuel with
  | zero =>
    intro ports found hf
    have : ports = [] := List.eq_nil_of_length_eq_zero (Nat.le_zero.mp hf)
    subst this
    simp [parallelLoop]
  | succ fuel ih =>
    intro ports found hf
    match ports with
    | [] => simp [parallelLoop]
    | port :: rest =>
      rw [parallelLoop]
      by_cases hguard : count ≤ found.length
      · rw [if_pos hguard]
        have : count - found.length = 0 := by omega
        simp [this]
      · rw [if_neg hguard]
        simp only
        rw [foldl_push_eq]
        have hdrop : ((port :: rest).drop maxC).length ≤ fuel := by
          simp only [List.length_drop, List.length_cons] at hf ⊢
          omega
        rw [ih _ _ hdrop]
        rw [List.append_assoc]
        congr 1
        have hsplit : (port :: rest) = (port :: rest).take maxC ++ (port :: rest).drop maxC :=
          (List.take_append_drop maxC (port :: rest)).symm
        conv_rhs => rw [hsplit]
        rw [List.filter_append]
        rw [List.take_append_eq_append_take]
        congr 1
        have hlen : (found ++ (((port :: rest).take maxC).filter avail).take (count - found.length)).length
            = found.length + min (count - found.length) (((port :: rest).take maxC).filter avail).length := by
          simp [List.length_take]
        rw [hlen]
        congr 1
        omega

theorem scanPortsParallel_eq_take (start e : Nat) (exclude : Nat → Bool)
    (validator : Option (Nat → Bool)) (avail : Nat → Bool) (count maxC : Nat)
    (hmax : 1 ≤ maxC) :
    scanPortsParallel start e exclude validator avail count maxC
      = ((candidatePorts start e exclude validator).filter avail).take count := by
  unfold scanPortsParallel
  rw [parallelLoop_eq avail count maxC hmax _ _ [] (Nat.le_succ _)]
  simp

/-- With `count = 0` the loop guard `found.length < count` fails at once. -/
theorem scanPortsLoop_count_zero (exclude : Nat → Bool) (validator : Option (Nat → Bool))
    (avail : Nat → Bool) (consecutive : Bool) (ports found : List Nat)
    (cStart : Int) (cCount : Nat) :
    scanPortsLoop exclude validator avail 0 consecutive ports found cStart cCount = found := by
  cases ports with
  | nil => rfl
  | cons p rest => simp [scanPortsLoop]

/-- Non-consecutive sequential loop: append the first
`count - found.length` eligible available ports of the remaining walk. -/
theorem scanPortsLoop_false_eq (exclude : Nat → Bool) (validator : Option (Nat → Bool))
    (avail : Nat → Bool) (count : Nat) :
    ∀ (ports found : List Nat) (cStart : Int) (cCount : Nat),
    scanPortsLoop exclude validator avail count false ports found cStart cCount
      = found ++ (ports.filter (elig exclude validator avail)).take (count - found.length) := by
  intro ports
  induction ports with
  | nil => intro found cStart cCount; simp [scanPortsLoop]
  | cons port rest ih =>
    intro found cStart cCount
    rw [scanPortsLoop]
    by_cases hguard : count ≤ found.length
    · rw [if_pos hguard]
      have : count - found.length = 0 := by omega
      simp [this]
    · rw [if_neg hguard]
      by_cases hex : exclude port
      · rw [if_pos hex, ih]
        simp only [List.filter_cons]
        rw [if_neg (by simp [elig, hex])]
      · rw [if_neg hex]
        by_cases hval : validatorAccepts validator port
        · rw [if_neg (by simp [hval])]
          by_cases hav : avail port
          · rw [if_pos hav]
            simp only [Bool.false_eq_true, if_false]
            rw [ih]
            simp only [List.filter_cons]
            rw [if_pos (by simp [elig, hex, hval, hav])]
            have hsub : count - found.length = (count - (found ++ [port]).length) + 1 := by
              simp only [List.length_append, List.length_cons, List.length_nil]
              omega
            rw [hsub, List.take_succ_cons]
            simp
          · rw [if_neg hav, ih]
            simp only [List.filter_cons]
            rw [if_neg (by simp [elig, hav])]
        · rw [if_pos (by simp [hval]), ih]
          simp only [List.filter_cons]
          rw [if_neg (by simp [elig, hval])]

theorem scanPorts_false_eq (start e : Nat) (exclude : Nat → Bool)
    (validator : Option (Nat → Bool)) (avail : Nat → Bool) (count : Nat) :
    scanPorts start e exclude validator avail count false
      = ((portsFromTo start e).filter (elig exclude validator avail)).take count := by
  unfold scanPorts
  rw [scanPortsLoop_false_eq]
  simp

/-- Consecutive-mode sequential loop invariant: starting the walk at `p`
with a live run of `cCount` eligible ports immediately preceding `p`, the
loop either finds no full block (and returns the untouched empty
accumulator) or returns a block of `count` adjacent ports, each passing
every gate, lying inside the walked region. -/
theorem scanPortsLoop_true_eq (exclude : Nat → Bool) (validator : Option (Nat → Bool))
    (avail : Nat → Bool) (count : Nat) (hcount : 1 ≤ count) :
    ∀ (m p : Nat) (cStart : Int) (cCount : Nat),
    cCount < count →
    (0 < cCount → cCount ≤ p ∧ cStart = ((p - cCount : Nat) : Int) ∧
       ∀ i < cCount, elig exclude validator avail (p - cCount + i) = true) →
    scanPortsLoop exclude validator avail count true (List.range' p m) [] cStart cCount = [] ∨
    ∃ b, scanPortsLoop exclude validator avail count true (List.range' p m) [] cStart cCount
           = List.range' b count ∧
         (∀ i < count, elig exclude validator avail (b + i) = true) ∧
         p - cCount ≤ b ∧ b + count ≤ p + m := by
  intro m
  induction m with
  | zero => intro p cStart cCount _ _; left; rfl
  | succ m ih =>
    intro p cStart cCount hlt hinv
    rw [List.range'_succ, scanPortsLoop]
    rw [if_neg (by simp only [List.length_nil]; omega)]
    by_cases hex : exclude p
    · rw [if_pos hex]
      rcases ih (p + 1) cStart 0 hcount (by omega) with h | ⟨b, heq, helig, hb1, hb2⟩
      · left; exact h
      · right; exact ⟨b, heq, helig, by omega, by omega⟩
    · rw [if_neg hex]
      by_cases hval : validatorAccepts validator p
      · rw [if_neg (by simp [hval])]
        by_cases hav : avail p
        · rw [if_pos hav, if_pos rfl]
          have heligp : elig exclude validator avail p = true := by
            simp [elig, hex, hval, hav]
          by_cases hcc : cCount + 1 = count
          · rw [if_pos hcc]
            right
            refine ⟨p - cCount, ?_, ?_, Nat.le_refl _, ?_⟩
            · rcases Nat.eq_zero_or_pos cCount with h0 | h0
              · subst h0
                rw [if_pos rfl]
                simp only [Int.toNat_ofNat, Nat.sub_zero, List.nil_append]
                rw [List.range'_eq_map_range]
              · rw [if_neg (by omega)]
                obtain ⟨hle, hcs, _⟩ := hinv h0
                rw [hcs]
                simp only [Int.toNat_ofNat, List.nil_append]
                rw [List.range'_eq_map_range]
            · intro i hi
              rcases Nat.lt_or_ge i cCount with hic | hic
              · rcases Nat.eq_zero_or_pos cCount with h0 | h0
                · omega
                · exact (hinv h0).2.2 i hic
              · have hi' : i = cCount := by omega
                rw [hi']
                rcases Nat.eq_zero_or_pos cCount with h0 | h0
                · rw [h0]; simpa using heligp
                · obtain ⟨hle, _, _⟩ := hinv h0
                  have hpc : p - cCount + cCount = p := by omega
                  rw [hpc]; exact heligp
            · omega
          · rw [if_neg hcc]
            have hle' : cCount + 1 ≤ p + 1 := by
              rcases Nat.eq_zero_or_pos cCount with h0 | h0
              · omega
              · have := (hinv h0).1; omega
            have hinv' : 0 < cCount + 1 → cCount + 1 ≤ p + 1 ∧
                (if cCount = 0 then ((p : Nat) : Int) else cStart)
                  = (((p + 1) - (cCount + 1) : Nat) : Int) ∧
                ∀ i < cCount + 1,
                  elig exclude validator avail ((p + 1) - (cCount + 1) + i) = true := by
              intro _
              refine ⟨hle', ?_, ?_⟩
              · rcases Nat.eq_zero_or_pos cCount with h0 | h0
                · subst h0
                  rw [if_pos rfl]
                  simp
                · rw [if_neg (by omega)]
                  obtain ⟨hle, hcs, _⟩ := hinv h0
                  rw [hcs]
                  congr 1
                  omega
              · intro i hi
                have hpe : (p + 1) - (cCount + 1) = p - cCount := by omega
                rw [hpe]
                rcases Nat.lt_or_ge i cCount with hic | hic
                · rcases Nat.eq_zero_or_pos cCount with h0 | h0
                  · omega
                  · exact (hinv h0).2.2 i hic
                · have hi' : i = cCount := by omega
                  rw [hi']
                  have hpc : p - cCount + cCount = p := by
                    rcases Nat.eq_zero_or_pos cCount with h0 | h0
                    · omega
                    · have := (hinv h0).1; omega
                  rw [hpc]; exact heligp
            rcases ih (p + 1) (if cCount = 0 then ((p : Nat) : Int) else cStart)
                (cCount + 1) (by omega) hinv' with h | ⟨b, heq, helig, hb1, hb2⟩
            · left; exact h
            · right
              refine ⟨b, heq, helig, ?_, by omega⟩
              have : (p + 1) - (cCount + 1) = p - cCount := by omega
              omega
        · rw [if_neg hav]
          rcases ih (p + 1) cStart 0 hcount (by omega) with h | ⟨b, heq, helig, hb1, hb2⟩
          · left; exact h
          · right; exact ⟨b, heq, helig, by omega, by omega⟩
      · rw [if_pos (by simp [hval])]
        rcases ih (p + 1) cStart 0 hcount (by omega) with h | ⟨b, heq, helig, hb1, hb2⟩
        · left; exact h
        · right; exact ⟨b, heq, helig, by omega, by omega⟩

/-- Consecutive-mode `scanPorts`: the result is empty or a block of
`count` adjacent, fully eligible ports inside `[start, e]`. -/
theorem scanPorts_true_eq (start e : Nat) (exclude : Nat → Bool)
    (validator : Option (Nat → Bool)) (avail : Nat → Bool) (count : Nat)
    (hcount : 1 ≤ count) :
    scanPorts start e exclude validator avail count true = [] ∨
    ∃ b, scanPorts start e exclude validator avail count true = List.range' b count ∧
         (∀ i < count, elig exclude validator avail (b + i) = true) ∧
         start ≤ b ∧ b + count ≤ e + 1 := by
  unfold scanPorts portsFromTo
  rcases scanPortsLoop_true_eq exclude validator avail count hcount (e + 1 - start) start
      (-1) 0 (by omega) (by omega) with h | ⟨b, heq, helig, hb1, hb2⟩
  · left; exact h
  · right
    refine ⟨b, heq, helig, by omega, by omega⟩

/-- The traced batch loop refines the plain batch loop and its windows
are `maxC`-bounded consecutive slices of the candidate list. -/
theorem parallelLoopTrace_spec (avail : Nat → Bool) (count maxC : Nat) :
    ∀ (fuel : Nat) (ports found : List Nat),
    (parallelLoopTrace avail count maxC fuel ports found).1
        = parallelLoop avail count maxC fuel ports found ∧
    (∀ b ∈ (parallelLoopTrace avail count maxC fuel ports found).2, b.length ≤ maxC) ∧
    ∃ n, (parallelLoopTrace avail count maxC fuel ports found).2.flatten = ports.take n := by
  intro fuel
  induction fuel with
  | zero =>
    intro ports found
    refine ⟨rfl, by simp [parallelLoopTrace], ⟨0, by simp [parallelLoopTrace]⟩⟩
  | succ fuel ih =>
    intro ports found
    match ports with
    | [] =>
      refine ⟨rfl, by simp [parallelLoopTrace], ⟨0, by simp [parallelLoopTrace]⟩⟩
    | port :: rest =>
      rw [parallelLoopTrace, parallelLoop]
      by_cases hguard : count ≤ found.length
      · rw [if_pos hguard, if_pos hguard]
        refine ⟨rfl, by simp, ⟨0, by simp⟩⟩
      · rw [if_neg hguard, if_neg hguard]
        simp only
        obtain ⟨h1, h2, n, h3⟩ := ih ((port :: rest).drop maxC) _
        refine ⟨h1, ?_, ?_⟩
        · intro b hb
          simp only [List.mem_cons] at hb
          rcases hb with hb | hb
          · rw [hb]; exact List.length_take_le _ _
          · exact h2 b hb
        · refine ⟨maxC + n, ?_⟩
          rw [List.flatten_cons, h3, List.take_add]

/-- The instrumented candidate pass appends the filtered candidates and
counts one validator evaluation per non-excluded port walked. -/
theorem candidatePassCount_spec (exclude : Nat → Bool) (v : Nat → Bool) :
    ∀ (ports : List Nat) (acc : List Nat × Nat),
    candidatePassCount exclude (some v) ports acc
      = (acc.1 ++ ports.filter (fun p => !exclude p && v p),
         acc.2 + (ports.filter (fun p => !exclude p)).length) := by
  intro ports
  induction ports with
  | nil => intro acc; simp [candidatePassCount]
  | cons port rest ih =>
    intro acc
    rw [candidatePassCount]
    by_cases hex : exclude port
    · rw [if_pos hex, ih]
      simp only [List.filter_cons, hex]
      simp
    · rw [if_neg hex]
      show (if v port = true
              then candidatePassCount exclude (some v) rest (acc.1 ++ [port], acc.2 + 1)
              else candidatePassCount exclude (some v) rest (acc.1, acc.2 + 1)) = _
      by_cases hv : v port
      · rw [if_pos hv, ih]
        simp only [List.filter_cons, hex, hv]
        simp [Nat.add_assoc, Nat.add_comm 1]
      · rw [if_neg hv, ih]
        simp only [List.filter_cons, hex, hv]
        simp [Nat.add_assoc, Nat.add_comm 1]

/-- With an unknown name anywhere in the list, `applyValidators` never
accepts a port: it either rejects (`ok false`, an earlier validator
failed) or throws. -/
theorem applyValidators_ne_ok_true (customs : String → Option (Nat → Bool))
    (names : List String) (n : String) (hmem : n ∈ names)
    (hunk : getValidator customs n = none) (p : Nat) :
    applyValidators customs p names ≠ Except.ok true := by
  induction names with
  | nil => cases hmem
  | cons name rest ih =>
    rw [applyValidators]
    cases hg : getValidator customs name with
    | none => intro h; cases h
    | some v =>
      rcases List.mem_cons.mp hmem with heq | hmem'
      · rw [heq] at hunk
        rw [hunk] at hg
        cases hg
      · show (if v p = true then applyValidators customs p rest else Except.ok false)
            ≠ Except.ok true
        by_cases hv : v p
        · rw [if_pos hv]
          exact ih hmem'
        · rw [if_neg hv]
          intro h; cases h

/-- If the validator never accepts, the sequential loop never probes and
never collects: it returns the accumulator unchanged or throws with the
probe count unchanged. -/
theorem scanPortsLoopE_no_accept (exclude : Nat → Bool)
    (v : Nat → Except String Bool) (avail : Nat → Bool) (count : Nat)
    (consecutive : Bool) (hv : ∀ p, v p ≠ Except.ok true) :
    ∀ (ports found : List Nat) (cStart : Int) (cCount probes : Nat),
    scanPortsLoopE exclude (some v) avail count consecutive ports found cStart cCount probes
        = Except.ok (found, probes) ∨
    ∃ m, scanPortsLoopE exclude (some v) avail count consecutive ports found cStart cCount probes
        = Except.error (m, probes) := by
  intro ports
  induction ports with
  | nil => intro found cStart cCount probes; left; rfl
  | cons port rest ih =>
    intro found cStart cCount probes
    rw [scanPortsLoopE]
    by_cases hguard : count ≤ found.length
    · rw [if_pos hguard]; left; rfl
    · rw [if_neg hguard]
      by_cases hex : exclude port
      · rw [if_pos hex]; exact ih found cStart 0 probes
      · rw [if_neg hex]
        rw [show validatorRun (some v) port = v port from rfl]
        cases hvp : v port with
        | error m => exact Or.inr ⟨m, rfl⟩
        | ok b =>
          cases b with
          | false => exact ih found cStart 0 probes
          | true => exact absurd hvp (hv port)

/-- If the validator never accepts, the parallel candidate pass collects
nothing: it returns the accumulator unchanged or throws. -/
theorem buildCandidatesE_no_accept (exclude : Nat → Bool)
    (v : Nat → Except String Bool) (hv : ∀ p, v p ≠ Except.ok true) :
    ∀ (ports acc : List Nat),
    buildCandidatesE exclude (some v) ports acc = Except.ok acc ∨
    ∃ m, buildCandidatesE exclude (some v) ports acc = Except.error m := by
  intro ports
  induction ports with
  | nil => intro acc; left; rfl
  | cons port rest ih =>
    intro acc
    rw [buildCandidatesE]
    by_cases hex : exclude port
    · rw [if_pos hex]; exact ih acc
    · rw [if_neg hex]
      rw [show validatorRun (some v) port = v port from rfl]
      cases hvp : v port with
      | error m => exact Or.inr ⟨m, rfl⟩
      | ok b =>
        cases b with
        | false => exact ih acc
        | true => exact absurd hvp (hv port)

/-- Every port returned by the sequential scanner lies in the range and
passes all three gates. -/
theorem mem_scanPorts (start e : Nat) (exclude : Nat → Bool)
    (validator : Option (Nat → Bool)) (avail : Nat → Bool) (count : Nat)
    (consecutive : Bool) (r : Nat)
    (hr : r ∈ scanPorts start e exclude validator avail count consecutive) :
    (start ≤ r ∧ r ≤ e) ∧ elig exclude validator avail r = true := by
  cases consecutive with
  | false =>
    rw [scanPorts_false_eq] at hr
    have hr' := List.mem_of_mem_take hr
    obtain ⟨hmem, helig⟩ := List.mem_filter.mp hr'
    exact ⟨mem_portsFromTo.mp hmem, helig⟩
  | true =>
    rcases Nat.eq_zero_or_pos count with h0 | h1
    · rw [h0] at hr
      unfold scanPorts at hr
      rw [scanPortsLoop_count_zero] at hr
      cases hr
    · rcases scanPorts_true_eq start e exclude validator avail count h1 with
        h | ⟨b, heq, helig, hb1, hb2⟩
      · rw [h] at hr; cases hr
      · rw [heq] at hr
        rw [List.mem_range'_1] at hr
        have he := helig (r - b) (by omega)
        rw [show b + (r - b) = r by omega] at he
        exact ⟨⟨by omega, by omega⟩, he⟩

/-- Every port returned by the parallel scanner lies in the range and
passes all three gates. -/
theorem mem_scanPortsParallel (start e : Nat) (exclude : Nat → Bool)
    (validator : Option (Nat → Bool)) (avail : Nat → Bool) (count maxC : Nat)
    (hmax : 1 ≤ maxC) (r : Nat)
    (hr : r ∈ scanPortsParallel start e exclude validator avail count maxC) :
    (start ≤ r ∧ r ≤ e) ∧ elig exclude validator avail r = true := by
  rw [scanPortsParallel_eq_take start e exclude validator avail count maxC hmax,
      candidatePorts_filter_avail] at hr
  have hr' := List.mem_of_mem_take hr
  obtain ⟨hmem, helig⟩ := List.mem_filter.mp hr'
  exact ⟨mem_portsFromTo.mp hmem, helig⟩

/-! ### Claims -/

/-- C2: `checkPort` never rejects: on every bind outcome (successful
listen, asynchronous error of any code, synchronous throw) the probe
emits exactly a cleanup of the socket followed by a resolution — no
rejection event — and it resolves `true` exactly when the listening
socket was established (and then released). -/
theorem claim_C2 (o : BindOutcome) :
    checkPortTrace o = [ProbeEvent.cleanup, ProbeEvent.resolveEv o.isListening] ∧
    ProbeEvent.rejectEv ∉ checkPortTrace o ∧
    (checkPort o = true ↔ o = BindOutcome.listening) := by
  cases o with
  | listening => exact ⟨rfl, by decide, by simp [checkPort, checkPortTrace]⟩
  | asyncError code =>
    refine ⟨?_, ?_, ?_⟩
    · show (if _ then _ else _) = _
      rw [ite_self]
      rfl
    · show ProbeEvent.rejectEv ∉ (if _ then _ else _)
      rw [ite_self]
      decide
    · constructor
      · intro h
        exfalso
        rw [checkPort] at h
        revert h
        show ((if _ then _ else _ : List ProbeEvent).foldl _ _ = true) → False
        rw [ite_self]
        decide
      · intro h; cases h
  | syncThrow => exact ⟨rfl, by decide, by simp [checkPort, checkPortTrace]⟩

/-- C3: with a positive window size, the parallel scanner returns exactly
the first `count` available ports of the ordered candidate list (excess
successes of the final window are discarded), and therefore coincides
extensionally with the sequential scanner in non-consecutive mode. -/
theorem claim_C3 (start e : Nat) (exclude : Nat → Bool)
    (validator : Option (Nat → Bool)) (avail : Nat → Bool) (count maxC : Nat)
    (hmax : 1 ≤ maxC) :
    scanPortsParallel start e exclude validator avail count maxC
        = ((candidatePorts start e exclude validator).filter avail).take count ∧
    scanPortsParallel start e exclude validator avail count maxC
        = scanPorts start e exclude validator avail count false := by
  refine ⟨scanPortsParallel_eq_take start e exclude validator avail count maxC hmax, ?_⟩
  rw [scanPortsParallel_eq_take start e exclude validator avail count maxC hmax,
      scanPorts_false_eq, candidatePorts_filter_avail]

/-- Witness for C3 at a concrete instance. -/
theorem claim_C3_witness :
    1 ≤ 2 ∧
    (scanPortsParallel 1 6 (fun p => p == 2) (some (fun p => p != 3)) (fun p => p != 4) 2 2
        = ((candidatePorts 1 6 (fun p => p == 2) (some (fun p => p != 3))).filter
            (fun p => p != 4)).take 2 ∧
     scanPortsParallel 1 6 (fun p => p == 2) (some (fun p => p != 3)) (fun p => p != 4) 2 2
        = scanPorts 1 6 (fun p => p == 2) (some (fun p => p != 3)) (fun p => p != 4) 2 false) :=
  ⟨by decide, claim_C3 1 6 (fun p => p == 2) (some (fun p => p != 3)) (fun p => p != 4) 2 2
      (by decide)⟩

/-- C9: in consecutive mode the result is all-or-nothing: its length is
`0` or exactly `count`. -/
theorem claim_C9 (start e : Nat) (exclude : Nat → Bool)
    (validator : Option (Nat → Bool)) (avail : Nat → Bool) (count : Nat) :
    (scanPorts start e exclude validator avail count true).length = 0 ∨
    (scanPorts start e exclude validator avail count true).length = count := by
  rcases Nat.eq_zero_or_pos count with h0 | h1
  · left
    rw [h0]
    unfold scanPorts
    rw [scanPortsLoop_count_zero]
    rfl
  · rcases scanPorts_true_eq start e exclude validator avail count h1 with
      h | ⟨b, heq, _, _, _⟩
    · left; rw [h]; rfl
    · right; rw [heq, List.length_range']

/-- C10: with a positive window size, the parallel scanner's result is
globally strictly ascending (hence duplicate-free) across window
boundaries. -/
theorem claim_C10 (start e : Nat) (exclude : Nat → Bool)
    (validator : Option (Nat → Bool)) (avail : Nat → Bool) (count maxC : Nat)
    (hmax : 1 ≤ maxC) :
    List.Pairwise (· < ·) (scanPortsParallel start e exclude validator avail count maxC) := by
  rw [scanPortsParallel_eq_take start e exclude validator avail count maxC hmax]
  have hsorted : List.Pairwise (· < ·) (portsFromTo start e) := by
    unfold portsFromTo
    exact List.pairwise_lt_range' _ _
  exact ((hsorted.filter _).filter _).sublist (List.take_sublist _ _)

/-- Witness for C10 at a concrete instance. -/
theorem claim_C10_witness :
    1 ≤ 3 ∧
    List.Pairwise (· < ·)
      (scanPortsParallel 1 9 (fun p => p == 2) none (fun p => p % 2 == 1) 3 3) :=
  ⟨by decide, claim_C10 1 9 (fun p => p == 2) none (fun p => p % 2 == 1) 3 3 (by decide)⟩

/-- C4: a full-length consecutive-mode result is a block of `count`
adjacent ports `b, b+1, …, b+count-1`, each in range, not excluded,
validator-accepted and available (so no disqualified port sits between
them). -/
theorem claim_C4 (start e : Nat) (exclude : Nat → Bool)
    (validator : Option (Nat → Bool)) (avail : Nat → Bool) (count : Nat)
    (hlen : (scanPorts start e exclude validator avail count true).length = count) :
    ∃ b, scanPorts start e exclude validator avail count true = List.range' b count ∧
      ∀ p ∈ scanPorts start e exclude validator avail count true,
        (start ≤ p ∧ p ≤ e) ∧ exclude p = false ∧
        validatorAccepts validator p = true ∧ avail p = true := by
  rcases Nat.eq_zero_or_pos count with h0 | h1
  · have hres : scanPorts start e exclude validator avail count true = [] := by
      rw [h0]
      unfold scanPorts
      rw [scanPortsLoop_count_zero]
    refine ⟨0, ?_, ?_⟩
    · rw [hres, h0]; rfl
    · rw [hres]; intro p hp; cases hp
  · rcases scanPorts_true_eq start e exclude validator avail count h1 with
      h | ⟨b, heq, helig, hb1, hb2⟩
    · rw [h] at hlen
      simp only [List.length_nil] at hlen
      omega
    · refine ⟨b, heq, ?_⟩
      intro p hp
      rw [heq, List.mem_range'_1] at hp
      have he := helig (p - b) (by omega)
      rw [show b + (p - b) = p by omega] at he
      simp only [elig, Bool.and_eq_true, Bool.not_eq_true'] at he
      exact ⟨⟨by omega, by omega⟩, he.1.1, he.1.2, he.2⟩

/-- Witness for C4 at a concrete instance. -/
theorem claim_C4_witness :
    (scanPorts 1 3 (fun _ => false) none (fun _ => true) 2 true).length = 2 ∧
    (∃ b, scanPorts 1 3 (fun _ => false) none (fun _ => true) 2 true = List.range' b 2 ∧
      ∀ p ∈ scanPorts 1 3 (fun _ => false) none (fun _ => true) 2 true,
        (1 ≤ p ∧ p ≤ 3) ∧ (fun _ => false) p = false ∧
        validatorAccepts none p = true ∧ (fun _ => true) p = true) :=
  ⟨by decide, claim_C4 1 3 (fun _ => false) none (fun _ => true) 2 (by decide)⟩

/-- C5 counterexample: the candidate filter pass does NOT evaluate the
predicate once per in-range port: on range `[1, 2]` with port `1`
excluded, the predicate is evaluated once while two ports are in range
(the `&&` short-circuits on excluded ports). -/
theorem claim_C5_counterexample :
    ((candidatePassCount (fun p => p == 1) (some (fun _ => true))
        (portsFromTo 1 2) ([], 0)).2 = 1 ∧
     (portsFromTo 1 2).length = 2) ∧
    ¬ (candidatePassCount (fun p => p == 1) (some (fun _ => true))
        (portsFromTo 1 2) ([], 0)).2 = (portsFromTo 1 2).length := by decide

/-- C5 amended: the candidate list is built by a pure filter pass over the
whole range before any probing, and during this pass the predicate is
evaluated exactly once per in-range NON-EXCLUDED port (zero times for
excluded ports), independently of the availability oracle, the requested
count, and any later early exit; the pass produces exactly the candidate
list the batch loop then probes. -/
theorem claim_C5_amended (start e : Nat) (exclude : Nat → Bool) (v : Nat → Bool) :
    (candidatePassCount exclude (some v) (portsFromTo start e) ([], 0)).2
        = ((portsFromTo start e).filter (fun p => !exclude p)).length ∧
    (candidatePassCount exclude (some v) (portsFromTo start e) ([], 0)).1
        = candidatePorts start e exclude (some v) := by
  rw [candidatePassCount_spec]
  refine ⟨by simp, ?_⟩
  simp only [List.nil_append]
  rfl

/-- C6: every port returned by either scanner lies in `[start, e]`, is
not excluded, and is accepted by the validator when one is supplied. -/
theorem claim_C6 (start e : Nat) (exclude : Nat → Bool)
    (validator : Option (Nat → Bool)) (avail : Nat → Bool)
    (count maxC : Nat) (consecutive : Bool) (hmax : 1 ≤ maxC) (r : Nat) :
    (r ∈ scanPorts start e exclude validator avail count consecutive →
      (start ≤ r ∧ r ≤ e) ∧ exclude r = false ∧ validatorAccepts validator r = true) ∧
    (r ∈ scanPortsParallel start e exclude validator avail count maxC →
      (start ≤ r ∧ r ≤ e) ∧ exclude r = false ∧ validatorAccepts validator r = true) := by
  constructor
  · intro hr
    obtain ⟨hrange, helig⟩ :=
      mem_scanPorts start e exclude validator avail count consecutive r hr
    simp only [elig, Bool.and_eq_true, Bool.not_eq_true'] at helig
    exact ⟨hrange, helig.1.1, helig.1.2⟩
  · intro hr
    obtain ⟨hrange, helig⟩ :=
      mem_scanPortsParallel start e exclude validator avail count maxC hmax r hr
    simp only [elig, Bool.and_eq_true, Bool.not_eq_true'] at helig
    exact ⟨hrange, helig.1.1, helig.1.2⟩

/-- Witness for C6 at a concrete instance. -/
theorem claim_C6_witness :
    1 ≤ 2 ∧
    ((5 ∈ scanPorts 1 6 (fun p => p == 2) (some (fun p => p != 3)) (fun _ => true) 2 false →
       (1 ≤ 5 ∧ 5 ≤ 6) ∧ (fun p => p == 2) 5 = false ∧
       validatorAccepts (some (fun p => p != 3)) 5 = true) ∧
     (5 ∈ scanPortsParallel 1 6 (fun p => p == 2) (some (fun p => p != 3)) (fun _ => true) 2 2 →
       (1 ≤ 5 ∧ 5 ≤ 6) ∧ (fun p => p == 2) 5 = false ∧
       validatorAccepts (some (fun p => p != 3)) 5 = true)) :=
  ⟨by decide, claim_C6 1 6 (fun p => p == 2) (some (fun p => p != 3)) (fun _ => true) 2 2 false
      (by decide) 5⟩

/-- C7: both scanners return between `0` and `count` ports and report
exhaustion by a short (possibly empty) result rather than an error: when
the range holds no eligible available port, both return `[]`. -/
theorem claim_C7 (start e : Nat) (exclude : Nat → Bool)
    (validator : Option (Nat → Bool)) (avail : Nat → Bool)
    (count maxC : Nat) (consecutive : Bool) (hmax : 1 ≤ maxC) :
    (scanPorts start e exclude validator avail count consecutive).length ≤ count ∧
    (scanPortsParallel start e exclude validator avail count maxC).length ≤ count ∧
    ((portsFromTo start e).filter (elig exclude validator avail) = [] →
      scanPorts start e exclude validator avail count consecutive = [] ∧
      scanPortsParallel start e exclude validator avail count maxC = []) := by
  refine ⟨?_, ?_, ?_⟩
  · cases consecutive with
    | false =>
      rw [scanPorts_false_eq]
      exact List.length_take_le _ _
    | true =>
      rcases Nat.eq_zero_or_pos count with h0 | h1
      · rw [h0]
        unfold scanPorts
        rw [scanPortsLoop_count_zero]
        exact Nat.le_refl _
      · rcases scanPorts_true_eq start e exclude validator avail count h1 with
          h | ⟨b, heq, _, _, _⟩
        · rw [h]; exact Nat.zero_le _
        · rw [heq, List.length_range']
  · rw [scanPortsParallel_eq_take start e exclude validator avail count maxC hmax]
    exact List.length_take_le _ _
  · intro hempty
    constructor
    · cases consecutive with
      | false =>
        rw [scanPorts_false_eq, hempty]
        simp
      | true =>
        rcases Nat.eq_zero_or_pos count with h0 | h1
        · rw [h0]
          unfold scanPorts
          rw [scanPortsLoop_count_zero]
        · rcases scanPorts_true_eq start e exclude validator avail count h1 with
            h | ⟨b, heq, helig, hb1, hb2⟩
          · exact h
          · exfalso
            have hb : b ∈ (portsFromTo start e).filter (elig exclude validator avail) := by
              refine List.mem_filter.mpr ⟨mem_portsFromTo.mpr ⟨hb1, by omega⟩, ?_⟩
              have := helig 0 (by omega)
              simpa using this
            rw [hempty] at hb
            cases hb
    · rw [scanPortsParallel_eq_take start e exclude validator avail count maxC hmax,
          candidatePorts_filter_avail, hempty]
      simp

/-- Witness for C7 at a concrete instance. -/
theorem claim_C7_witness :
    1 ≤ 2 ∧
    ((scanPorts 1 4 (fun _ => false) none (fun _ => false) 2 false).length ≤ 2 ∧
     (scanPortsParallel 1 4 (fun _ => false) none (fun _ => false) 2 2).length ≤ 2 ∧
     ((portsFromTo 1 4).filter (elig (fun _ => false) none (fun _ => false)) = [] →
       scanPorts 1 4 (fun _ => false) none (fun _ => false) 2 false = [] ∧
       scanPortsParallel 1 4 (fun _ => false) none (fun _ => false) 2 2 = [])) :=
  ⟨by decide, claim_C7 1 4 (fun _ => false) none (fun _ => false) 2 2 false (by decide)⟩

/-- C8: with a positive window size `maxC`, the parallel scanner probes
candidates in consecutive windows — each traced batch has at most `maxC`
ports, the concatenation of the batches is an initial segment of the
candidate list, and the traced run computes the same result as
`scanPortsParallel` (each window settles in full before the next is
issued, which is the sequencing of the traced loop). -/
theorem claim_C8 (start e : Nat) (exclude : Nat → Bool)
    (validator : Option (Nat → Bool)) (avail : Nat → Bool) (count maxC : Nat)
    (hmax : 1 ≤ maxC) :
    (∀ b ∈ (scanPortsParallelTrace start e exclude validator avail count maxC).2,
        b.length ≤ maxC) ∧
    (∃ n, (scanPortsParallelTrace start e exclude validator avail count maxC).2.flatten
        = (candidatePorts start e exclude validator).take n) ∧
    (scanPortsParallelTrace start e exclude validator avail count maxC).1
        = scanPortsParallel start e exclude validator avail count maxC := by
  obtain ⟨h1, h2, h3⟩ := parallelLoopTrace_spec avail count maxC
    ((candidatePorts start e exclude validator).length + 1)
    (candidatePorts start e exclude validator) []
  exact ⟨h2, h3, h1⟩

/-- Witness for C8 at a concrete instance. -/
theorem claim_C8_witness :
    1 ≤ 4 ∧
    ((∀ b ∈ (scanPortsParallelTrace 1 10 (fun _ => false) none (fun p => p % 2 == 0) 3 4).2,
        b.length ≤ 4) ∧
     (∃ n, (scanPortsParallelTrace 1 10 (fun _ => false) none (fun p => p % 2 == 0) 3 4).2.flatten
        = (candidatePorts 1 10 (fun _ => false) none).take n) ∧
     (scanPortsParallelTrace 1 10 (fun _ => false) none (fun p => p % 2 == 0) 3 4).1
        = scanPortsParallel 1 10 (fun _ => false) none (fun p => p % 2 == 0) 3 4) :=
  ⟨by decide, claim_C8 1 10 (fun _ => false) none (fun p => p % 2 == 0) 3 4 (by decide)⟩

/-- C1 counterexample: a scan whose validator-name list holds only the
unregistered name `nope` COMPLETES successfully (empty result, zero
probes) instead of failing, because every in-range port is excluded and
the validator — hence the name resolution — is never consulted. -/
theorem claim_C1_counterexample :
    getValidator noCustoms "nope" = none ∧
    scanPortsParallelE 1 1 (fun p => p == 1)
        (some (fun p => applyValidators noCustoms p ["nope"]))
        (fun _ => true) 1 100 = Except.ok ([], 0) :=
  ⟨rfl, rfl⟩

/-- C1 amended: when the validator-name list contains a name registered
neither as custom nor as built-in, no port ever passes validation, so
neither scanner issues a single probe: each either throws the unknown-
validator error with zero probes issued, or completes with the empty
result and zero probes (the latter happens when every in-range port is
excluded or rejected by a validator preceding the unknown name). -/
theorem claim_C1_amended (customs : String → Option (Nat → Bool)) (names : List String)
    (n : String) (hmem : n ∈ names) (hunk : getValidator customs n = none)
    (start e : Nat) (exclude : Nat → Bool) (avail : Nat → Bool)
    (count maxC : Nat) (consecutive : Bool) :
    (scanPortsE start e exclude (some (fun p => applyValidators customs p names))
        avail count consecutive = Except.ok ([], 0) ∨
     ∃ m, scanPortsE start e exclude (some (fun p => applyValidators customs p names))
        avail count consecutive = Except.error (m, 0)) ∧
    (scanPortsParallelE start e exclude (some (fun p => applyValidators customs p names))
        avail count maxC = Except.ok ([], 0) ∨
     ∃ m, scanPortsParallelE start e exclude (some (fun p => applyValidators customs p names))
        avail count maxC = Except.error (m, 0)) := by
  have hv : ∀ p, applyValidators customs p names ≠ Except.ok true :=
    fun p => applyValidators_ne_ok_true customs names n hmem hunk p
  constructor
  · exact scanPortsLoopE_no_accept exclude _ avail count consecutive hv
      (portsFromTo start e) [] (-1) 0 0
  · rcases buildCandidatesE_no_accept exclude _ hv (portsFromTo start e) [] with
      hok | ⟨m, herr⟩
    · left
      unfold scanPortsParallelE
      rw [hok]
      rfl
    · right
      refine ⟨m, ?_⟩
      unfold scanPortsParallelE
      rw [herr]

/-- Witness for the amended C1 at a concrete instance. -/
theorem claim_C1_amended_witness :
    ("nope" ∈ ["nope"] ∧ getValidator noCustoms "nope" = none) ∧
    ((scanPortsE 1 3 (fun _ => false) (some (fun p => applyValidators noCustoms p ["nope"]))
        (fun _ => true) 1 false = Except.ok ([], 0) ∨
      ∃ m, scanPortsE 1 3 (fun _ => false) (some (fun p => applyValidators noCustoms p ["nope"]))
        (fun _ => true) 1 false = Except.error (m, 0)) ∧
     (scanPortsParallelE 1 3 (fun _ => false) (some (fun p => applyValidators noCustoms p ["nope"]))
        (fun _ => true) 1 100 = Except.ok ([], 0) ∨
      ∃ m, scanPortsParallelE 1 3 (fun _ => false) (some (fun p => applyValidators noCustoms p ["nope"]))
        (fun _ => true) 1 100 = Except.error (m, 0))) :=
  ⟨⟨by simp, rfl⟩,
   claim_C1_amended noCustoms ["nope"] "nope" (by simp) rfl 1 3 (fun _ => false)
     (fun _ => true) 1 100 false⟩

end PortFinder
